import Mathlib

/-!
Shallow embedding of `src/Drivers/EM7180/Src/lis2mdl.c`, the LIS2MDL
magnetometer driver, together with theorems about its calibration,
self-test, data-decode and bus-traffic behaviour.

Modelling conventions:
* bytes are `Nat` values (`uint8_t` values are always `< 256` where produced);
* C `int16_t` / `int32_t` arithmetic is embedded as `Int` (every quantity in
  the driver stays far below the `int32_t` overflow bound, and the one
  genuine 16-bit wrap, the little-endian decode, is made explicit in
  `int16OfBytes`);
* C `float` arithmetic is embedded as exact rational arithmetic over `ℚ`
  (the driver only scales, sums, and divides);
* the device is modelled by `Dev`: a persistent register file `regs`
  (written by `lis2mdl_write_byte`, read by `lis2mdl_read_byte`) and a
  stream `out` of byte blocks returned by successive multi-byte reads of
  the measurement output registers, with `idx` counting those reads;
* the bus traffic of an operation is logged as a `List BusOp`.
-/

namespace LIS2MDL

/-- Modelled from the spec: the register map of `lis2mdl.h` is not part of
`src/`; the spec (§6) treats the register addresses as opaque device-specific
constants, so they are fixed here at the device datasheet values. No claim
depends on the numeric values, only on the constants being used consistently. -/
def LIS2MDL_ADDRESS : Nat := 0x1E

/-- Modelled from the spec: identification register address. -/
def LIS2MDL_WHO_AM_I : Nat := 0x4F

/-- Modelled from the spec: mode-configuration register A address. -/
def LIS2MDL_CFG_REG_A : Nat := 0x60

/-- Modelled from the spec: mode-configuration register B address. -/
def LIS2MDL_CFG_REG_B : Nat := 0x61

/-- Modelled from the spec: mode-configuration register C address
(holds the self-test-enable bit 0x02). -/
def LIS2MDL_CFG_REG_C : Nat := 0x62

/-- Modelled from the spec: status register address. -/
def LIS2MDL_STATUS_REG : Nat := 0x67

/-- Modelled from the spec: first measurement output register (X low byte). -/
def LIS2MDL_OUTX_L_REG : Nat := 0x68

/-- Modelled from the spec: temperature output register (low byte). -/
def LIS2MDL_TEMP_OUT_L_REG : Nat := 0x6E

/-- The fixed sensitivity constant `_mRes = 0.0015f` of `lis2mdl.c`,
embedded as the exact rational 0.0015. -/
def mRes : ℚ := 0.0015

/-- Little-endian signed 16-bit decode of two bus bytes: the embedding of
`((int16_t) hi << 8) | lo` followed by the (two's-complement) conversion of
the 16-bit pattern into a signed value, as in `lis2mdl_data_get` and
`lis2mdl_temp_get`. -/
def int16OfBytes (lo hi : Nat) : Int :=
  let u : Nat := (hi % 256) * 256 + lo % 256
  if u < 32768 then (u : Int) else (u : Int) - 65536

/-- The number of bytes `lis2mdl_data_get` requests from the bus in its
multi-byte read (the literal `8` passed to `lis2mdl_read_bytes`). -/
def data_get_read_count : Nat := 8

/-- The declared capacity of the local receive buffer in
`lis2mdl_data_get` (`uint8_t rawData[6]`). -/
def data_get_buffer_capacity : Nat := 6

/-- The decode performed by `lis2mdl_data_get` on the byte block the bus
returned: bytes 0..5 become the three little-endian signed 16-bit axis
values written to `destination[0..2]`. -/
def lis2mdl_data_get (rawData : List Nat) : Int × Int × Int :=
  (int16OfBytes (rawData.getD 0 0) (rawData.getD 1 0),
   int16OfBytes (rawData.getD 2 0) (rawData.getD 3 0),
   int16OfBytes (rawData.getD 4 0) (rawData.getD 5 0))

/-- One iteration of the extrema update in the sampling loop of
`lis2mdl_offset_bias`: the pair is (running max, running min);
`if(mag_temp[jj] > mag_max[jj]) mag_max[jj] = mag_temp[jj];`
`if(mag_temp[jj] < mag_min[jj]) mag_min[jj] = mag_temp[jj];`. -/
def extremaStep (mm : Int × Int) (s : Int) : Int × Int :=
  (if s > mm.1 then s else mm.1, if s < mm.2 then s else mm.2)

/-- The initial extrema of `lis2mdl_offset_bias`:
`mag_max = -32767`, `mag_min = 32767`. -/
def extremaInit : Int × Int := (-32767, 32767)

/-- The (max, min) pair produced by running the sampling loop of
`lis2mdl_offset_bias` over a list of one axis's samples. -/
def runExtrema (samples : List Int) : Int × Int :=
  samples.foldl extremaStep extremaInit

/-- All values computed by `lis2mdl_offset_bias` after its sampling loop:
the hard-iron biases `mag_bias` (counts), the returned offsets `dest1`
(physical units), the soft-iron scale bases `mag_scale` (counts), the
average radius `avg_rad`, and the returned scale factors `dest2`. -/
structure CalibOut where
  mag_bias : Int × Int × Int
  dest1 : ℚ × ℚ × ℚ
  mag_scale : Int × Int × Int
  avg_rad : ℚ
  dest2 : ℚ × ℚ × ℚ

/-- The computation of `lis2mdl_offset_bias` as a function of the sequence
of raw samples its loop read.  `Int.tdiv` is C's truncation-toward-zero
division; `avg_rad` is the `int32_t` sum of the scale bases converted to
float and divided by `3.0f`; `dest2` divides `avg_rad` by each axis's scale
basis with no guard against a zero basis (in C, IEEE division by zero). -/
def lis2mdl_offset_bias (samples : List (Int × Int × Int)) : CalibOut :=
  let exX := runExtrema (samples.map fun s => s.1)
  let exY := runExtrema (samples.map fun s => s.2.1)
  let exZ := runExtrema (samples.map fun s => s.2.2)
  let biasX := Int.tdiv (exX.1 + exX.2) 2
  let biasY := Int.tdiv (exY.1 + exY.2) 2
  let biasZ := Int.tdiv (exZ.1 + exZ.2) 2
  let scaleX := Int.tdiv (exX.1 - exX.2) 2
  let scaleY := Int.tdiv (exY.1 - exY.2) 2
  let scaleZ := Int.tdiv (exZ.1 - exZ.2) 2
  let avg_rad : ℚ := ((scaleX + scaleY + scaleZ : Int) : ℚ) / 3
  { mag_bias := (biasX, biasY, biasZ)
    dest1 := ((biasX : ℚ) * mRes, (biasY : ℚ) * mRes, (biasZ : ℚ) * mRes)
    mag_scale := (scaleX, scaleY, scaleZ)
    avg_rad := avg_rad
    dest2 := (avg_rad / (scaleX : ℚ), avg_rad / (scaleY : ℚ),
              avg_rad / (scaleZ : ℚ)) }

/-- One iteration of the accumulation `sum[j] += temp[j]` in
`lis2mdl_self_test`. -/
def sum3Step (acc s : Int × Int × Int) : Int × Int × Int :=
  (acc.1 + s.1, acc.2.1 + s.2.1, acc.2.2 + s.2.2)

/-- Per-axis sum of a list of raw samples, as accumulated into the
`int32_t sum[3]` array of `lis2mdl_self_test`. -/
def sum3 (l : List (Int × Int × Int)) : Int × Int × Int :=
  l.foldl sum3Step (0, 0, 0)

/-- The values computed and printed by `lis2mdl_self_test`: the baseline
means `magNom`, the excited means `magTest`, and the three numbers printed
under the labels "Mx results", "My results" and "Mz results". -/
structure SelfTestOut where
  magNom : ℚ × ℚ × ℚ
  magTest : ℚ × ℚ × ℚ
  printedMx : ℚ
  printedMy : ℚ
  printedMz : ℚ

/-- The computation of `lis2mdl_self_test` as a function of the 50 baseline
samples and the 50 excited samples its two loops read.  The printed values
follow the source exactly: the Mx and My lines both print
`(magTest[0] - magNom[0]) * _mRes * 1000.0`, and the Mz line prints
`(magTest[1] - magNom[1]) * _mRes * 1000.0`. -/
def lis2mdl_self_test (baseline excited : List (Int × Int × Int)) :
    SelfTestOut :=
  let sumN := sum3 (baseline.take 50)
  let sumT := sum3 (excited.take 50)
  let magNom : ℚ × ℚ × ℚ :=
    ((sumN.1 : ℚ) / 50, (sumN.2.1 : ℚ) / 50, (sumN.2.2 : ℚ) / 50)
  let magTest : ℚ × ℚ × ℚ :=
    ((sumT.1 : ℚ) / 50, (sumT.2.1 : ℚ) / 50, (sumT.2.2 : ℚ) / 50)
  { magNom := magNom
    magTest := magTest
    printedMx := (magTest.1 - magNom.1) * mRes * 1000
    printedMy := (magTest.1 - magNom.1) * mRes * 1000
    printedMz := (magTest.2.1 - magNom.2.1) * mRes * 1000 }

/-- One bus transaction, as issued through `Wire.transfer`: either a
multi-byte register read (auto-increment signalled by the high bit of the
subaddress) or a single register write. -/
inductive BusOp where
  | readBytes (address subAddress count : Nat) : BusOp
  | writeByte (address subAddress data : Nat) : BusOp
deriving DecidableEq

/-- The device and bus environment: `regs` is the persistent register file
(read by `lis2mdl_read_byte`, written by `lis2mdl_write_byte`); `out` gives
the byte block the bus returns for the n-th multi-byte read of measurement
output registers (those registers change with the physical field, so they
are a stream indexed by `idx`, the count of such reads so far). -/
structure Dev where
  regs : Nat → Nat
  out : Nat → List Nat
  idx : Nat

/-- `lis2mdl_read_byte`: a one-byte register read; returns the register's
current value, leaves the device unchanged, logs one bus read. -/
def lis2mdl_read_byte (subAddress : Nat) (d : Dev) :
    Nat × Dev × List BusOp :=
  (d.regs subAddress, d, [BusOp.readBytes LIS2MDL_ADDRESS subAddress 1])

/-- `lis2mdl_write_byte`: a one-byte register write; updates the register
file, logs one bus write. -/
def lis2mdl_write_byte (subAddress data : Nat) (d : Dev) :
    Dev × List BusOp :=
  ({ d with regs := fun s => if s = subAddress then data else d.regs s },
   [BusOp.writeByte LIS2MDL_ADDRESS subAddress data])

/-- The effectful behaviour of `lis2mdl_data_get`: one multi-byte bus read
of 8 bytes starting at the (auto-increment) X output register, decoded by
the pure `lis2mdl_data_get`; consumes one block from the output stream. -/
def data_get_eff (d : Dev) : (Int × Int × Int) × Dev × List BusOp :=
  (lis2mdl_data_get (d.out d.idx), { d with idx := d.idx + 1 },
   [BusOp.readBytes LIS2MDL_ADDRESS (0x80 ||| LIS2MDL_OUTX_L_REG)
      data_get_read_count])

/-- `lis2mdl_temp_get`: one multi-byte bus read of 2 bytes starting at the
temperature output register, little-endian decoded. -/
def lis2mdl_temp_get_eff (d : Dev) : Int × Dev × List BusOp :=
  let bytes := d.out d.idx
  (int16OfBytes (bytes.getD 0 0) (bytes.getD 1 0), { d with idx := d.idx + 1 },
   [BusOp.readBytes LIS2MDL_ADDRESS (0x80 ||| LIS2MDL_TEMP_OUT_L_REG) 2])

/-- A counted sampling loop (`for(int ii = 0; ii < n; ii++)` calling
`lis2mdl_data_get` each iteration): returns the samples read, the device
after the loop and the concatenated bus traffic. -/
def sampleLoop : Nat → Dev → List (Int × Int × Int) × Dev × List BusOp
  | 0, d => ([], d, [])
  | n + 1, d =>
    let r := data_get_eff d
    let rest := sampleLoop n r.2.1
    (r.1 :: rest.1, rest.2.1, r.2.2 ++ rest.2.2)

/-- The effectful behaviour of `lis2mdl_offset_bias`: 4000 iterations of
the sampling loop, then the pure post-processing of the collected samples.
The source issues no register writes anywhere in this function. -/
def lis2mdl_offset_bias_eff (d : Dev) : CalibOut × Dev × List BusOp :=
  match sampleLoop 4000 d with
  | (samples, d1, ops) => (lis2mdl_offset_bias samples, d1, ops)

/-- The effectful behaviour of `lis2mdl_self_test`: 50 baseline samples,
read CFG_REG_C, write it back with the self-test bit (0x02) set, 50 excited
samples, then write back the original value. -/
def lis2mdl_self_test_eff (d : Dev) : SelfTestOut × Dev × List BusOp :=
  let r1 := sampleLoop 50 d
  let r2 := lis2mdl_read_byte LIS2MDL_CFG_REG_C r1.2.1
  let c := r2.1
  let r3 := lis2mdl_write_byte LIS2MDL_CFG_REG_C (c ||| 0x02) r2.2.1
  let r4 := sampleLoop 50 r3.1
  let r5 := lis2mdl_write_byte LIS2MDL_CFG_REG_C c r4.2.1
  (lis2mdl_self_test r1.1 r4.1, r5.1,
   r1.2.2 ++ r2.2.2 ++ r3.2 ++ r4.2.2 ++ r5.2)

/-- The driver's private global state: `static uint8_t _intPin`, the pin
stored by `lis2mdl_new`.  (`_mRes` is redeclared locally as the same
constant inside the functions that use it, so it is not part of the
mutable state that other operations could observe.) -/
structure Globals where
  intPin : Nat

/-- `lis2mdl_new`: configures the pin as an input (an effect on the MCU,
not on the magnetometer) and stores it in the private global `_intPin`. -/
def lis2mdl_new (pin : Nat) : Globals :=
  { intPin := pin }

/-- `lis2mdl_chip_id_get`, with the driver globals in scope as in C:
reads the WHO_AM_I register.  The body never consults `_intPin`. -/
def lis2mdl_chip_id_get_eff (_g : Globals) (d : Dev) :
    Nat × Dev × List BusOp :=
  lis2mdl_read_byte LIS2MDL_WHO_AM_I d

/-- `lis2mdl_status`, with the driver globals in scope as in C:
reads the status register.  The body never consults `_intPin`. -/
def lis2mdl_status_eff (_g : Globals) (d : Dev) :
    Nat × Dev × List BusOp :=
  lis2mdl_read_byte LIS2MDL_STATUS_REG d

/-- `lis2mdl_data_get`, with the driver globals in scope as in C.
The body never consults `_intPin`. -/
def lis2mdl_data_get_eff (_g : Globals) (d : Dev) :
    (Int × Int × Int) × Dev × List BusOp :=
  data_get_eff d

/-- `lis2mdl_temp_get`, with the driver globals in scope as in C.
The body never consults `_intPin`. -/
def lis2mdl_temp_get_eff' (_g : Globals) (d : Dev) :
    Int × Dev × List BusOp :=
  lis2mdl_temp_get_eff d

/-- `lis2mdl_offset_bias`, with the driver globals in scope as in C.
The body never consults `_intPin`. -/
def lis2mdl_offset_bias_eff' (_g : Globals) (d : Dev) :
    CalibOut × Dev × List BusOp :=
  lis2mdl_offset_bias_eff d

/-- `lis2mdl_self_test`, with the driver globals in scope as in C.
The body never consults `_intPin`. -/
def lis2mdl_self_test_eff' (_g : Globals) (d : Dev) :
    SelfTestOut × Dev × List BusOp :=
  lis2mdl_self_test_eff d

/- ## Helper lemmas on the extrema fold -/

lemma extremaStep_fst (mm : Int × Int) (s : Int) :
    (extremaStep mm s).1 = if s > mm.1 then s else mm.1 := rfl

lemma extremaStep_snd (mm : Int × Int) (s : Int) :
    (extremaStep mm s).2 = if s < mm.2 then s else mm.2 := rfl

lemma extrema_foldl_fst_ge (l : List Int) (mm : Int × Int) :
    mm.1 ≤ (l.foldl extremaStep mm).1 ∧
      ∀ s ∈ l, s ≤ (l.foldl extremaStep mm).1 := by
  induction l generalizing mm with
  | nil => simp
  | cons a t ih =>
    obtain ⟨h1, h2⟩ := ih (extremaStep mm a)
    have hstep : mm.1 ≤ (extremaStep mm a).1 := by
      rw [extremaStep_fst]; split <;> omega
    have hstepa : a ≤ (extremaStep mm a).1 := by
      rw [extremaStep_fst]; split <;> omega
    refine ⟨le_trans hstep h1, ?_⟩
    intro s hs
    rcases List.mem_cons.mp hs with rfl | hs
    · exact le_trans hstepa h1
    · exact h2 s hs

lemma extrema_foldl_snd_le (l : List Int) (mm : Int × Int) :
    (l.foldl extremaStep mm).2 ≤ mm.2 ∧
      ∀ s ∈ l, (l.foldl extremaStep mm).2 ≤ s := by
  induction l generalizing mm with
  | nil => simp
  | cons a t ih =>
    obtain ⟨h1, h2⟩ := ih (extremaStep mm a)
    have hstep : (extremaStep mm a).2 ≤ mm.2 := by
      rw [extremaStep_snd]; split <;> omega
    have hstepa : (extremaStep mm a).2 ≤ a := by
      rw [extremaStep_snd]; split <;> omega
    refine ⟨le_trans h1 hstep, ?_⟩
    intro s hs
    rcases List.mem_cons.mp hs with rfl | hs
    · exact le_trans h1 hstepa
    · exact h2 s hs

lemma extrema_foldl_fst_mem (l : List Int) (mm : Int × Int) :
    (l.foldl extremaStep mm).1 = mm.1 ∨ (l.foldl extremaStep mm).1 ∈ l := by
  induction l generalizing mm with
  | nil => simp
  | cons a t ih =>
    rcases ih (extremaStep mm a) with h | h
    · rw [List.foldl_cons, h, extremaStep_fst]
      by_cases ha : a > mm.1
      · simp [ha]
      · simp [ha]
    · right
      exact List.mem_cons_of_mem a h

lemma extrema_foldl_snd_mem (l : List Int) (mm : Int × Int) :
    (l.foldl extremaStep mm).2 = mm.2 ∨ (l.foldl extremaStep mm).2 ∈ l := by
  induction l generalizing mm with
  | nil => simp
  | cons a t ih =>
    rcases ih (extremaStep mm a) with h | h
    · rw [List.foldl_cons, h, extremaStep_snd]
      by_cases ha : a < mm.2
      · simp [ha]
      · simp [ha]
    · right
      exact List.mem_cons_of_mem a h

/-- The running max is the true maximum of the samples, provided every
sample is at least −32767 (the initial value of `mag_max`); a list made
only of −32768 would otherwise leave the initial −32767 in place. -/
lemma runExtrema_max_spec (l : List Int) (hne : l ≠ [])
    (hb : ∀ s ∈ l, -32767 ≤ s) :
    (runExtrema l).1 ∈ l ∧ ∀ s ∈ l, s ≤ (runExtrema l).1 := by
  obtain ⟨h1, h2⟩ := extrema_foldl_fst_ge l extremaInit
  have h2' : ∀ s ∈ l, s ≤ (runExtrema l).1 := h2
  refine ⟨?_, h2'⟩
  rcases extrema_foldl_fst_mem l extremaInit with h | h
  · have h' : (runExtrema l).1 = -32767 := h
    obtain ⟨a, t, rfl⟩ := List.exists_cons_of_ne_nil hne
    have ha := hb a (by simp)
    have haub : a ≤ (runExtrema (a :: t)).1 := h2' a (by simp)
    have haeq : a = (runExtrema (a :: t)).1 := by omega
    rw [← haeq]
    simp
  · exact h

/-- The running min is the true minimum of the samples, provided every
sample is at most 32767 (the initial value of `mag_min`). -/
lemma runExtrema_min_spec (l : List Int) (hne : l ≠ [])
    (hb : ∀ s ∈ l, s ≤ 32767) :
    (runExtrema l).2 ∈ l ∧ ∀ s ∈ l, (runExtrema l).2 ≤ s := by
  obtain ⟨h1, h2⟩ := extrema_foldl_snd_le l extremaInit
  have h2' : ∀ s ∈ l, (runExtrema l).2 ≤ s := h2
  refine ⟨?_, h2'⟩
  rcases extrema_foldl_snd_mem l extremaInit with h | h
  · have h' : (runExtrema l).2 = 32767 := h
    obtain ⟨a, t, rfl⟩ := List.exists_cons_of_ne_nil hne
    have ha := hb a (by simp)
    have halb : (runExtrema (a :: t)).2 ≤ a := h2' a (by simp)
    have haeq : a = (runExtrema (a :: t)).2 := by omega
    rw [← haeq]
    simp
  · exact h

lemma extrema_foldl_ge_of_ge (l : List Int) (mm : Int × Int)
    (h : mm.2 ≤ mm.1) :
    (l.foldl extremaStep mm).2 ≤ (l.foldl extremaStep mm).1 := by
  induction l generalizing mm with
  | nil => simpa using h
  | cons a t ih =>
    rw [List.foldl_cons]
    apply ih
    rw [extremaStep_fst, extremaStep_snd]
    split <;> split <;> omega

lemma runExtrema_min_le_max (l : List Int) (hne : l ≠ []) :
    (runExtrema l).2 ≤ (runExtrema l).1 := by
  obtain ⟨a, t, rfl⟩ := List.exists_cons_of_ne_nil hne
  rw [runExtrema, List.foldl_cons]
  apply extrema_foldl_ge_of_ge
  rw [extremaStep_fst, extremaStep_snd]
  simp only [extremaInit]
  split <;> split <;> omega

lemma getD_take (l : List Nat) (n i : Nat) (h : i < n) (d : Nat) :
    (l.take n).getD i d = l.getD i d := by
  induction l generalizing n i with
  | nil => simp
  | cons a t ih =>
    cases n with
    | zero => omega
    | succ m =>
      cases i with
      | zero => simp
      | succ j =>
        simp only [List.take, List.getD_cons_succ]
        exact ih m j (by omega)

/- ## C7 -/

/-- C7 counterexample: the claim fails as stated.  Feeding exactly one
sample with the valid int16 value −32768 leaves the running max at its
initial −32767, so max does not equal the single sample's value. -/
theorem c7_single_sample_counterexample :
    (-32768 : Int) ≤ 32767 ∧ (-32768 : Int) ≤ -32768 ∧
      (runExtrema [(-32768 : Int)]).1 ≠ -32768 := by
  refine ⟨by norm_num, le_refl _, ?_⟩
  show (extremaStep extremaInit (-32768)).1 ≠ -32768
  rw [extremaStep_fst]
  norm_num [extremaInit]

/-- C7 (amended): for every nonempty sequence of samples the final running
max is at least the final running min, and when exactly one sample was fed
whose value is at least −32767 (every int16 value except −32768), both the
running max and the running min equal that sample's value.  For the single
sample −32768 the running min equals the sample but the running max stays
at the initial −32767. -/
theorem c7_running_extrema (l : List Int) (hne : l ≠ []) :
    (runExtrema l).2 ≤ (runExtrema l).1 ∧
      (∀ s : Int, -32767 ≤ s → s ≤ 32767 → runExtrema [s] = (s, s)) ∧
      runExtrema [(-32768 : Int)] = (-32767, -32768) := by
  refine ⟨runExtrema_min_le_max l hne, ?_, ?_⟩
  · intro s h1 h2
    show extremaStep extremaInit s = (s, s)
    rw [Prod.ext_iff, extremaStep_fst, extremaStep_snd]
    simp only [extremaInit]
    constructor
    · split <;> omega
    · split <;> omega
  · rfl

/-- C7 witness: the amended theorem applied to the concrete sample
sequence [5, 12, −3]. -/
theorem c7_running_extrema_witness :
    (runExtrema [(5 : Int), 12, -3]).2 ≤ (runExtrema [(5 : Int), 12, -3]).1 :=
  (c7_running_extrema [5, 12, -3] (by simp)).1

/- ## C3 -/

/-- C3: the claim fails on the code.  `lis2mdl_data_get` passes count 8 to
the multi-byte bus read while its receiving buffer is declared
`uint8_t rawData[6]`: the requested byte count exceeds the buffer
capacity (the bus write of the last two received bytes is out of bounds
on every call, whatever bytes the bus returns). -/
theorem c3_read_exceeds_buffer :
    data_get_buffer_capacity < data_get_read_count ∧
      data_get_read_count = 8 ∧ data_get_buffer_capacity = 6 := by
  refine ⟨?_, rfl, rfl⟩
  show (6 : Nat) < 8
  norm_num

/- ## C4 -/

/-- C4: `lis2mdl_data_get` issues its one multi-byte read with count 8,
decodes only the first 6 bytes (the decode is invariant under changing the
trailing two bytes), each axis little-endian signed 16-bit: the decoded
value lies in [−32768, 32768) and is congruent to lo + 256·hi modulo
65536; and the bytes [0x10,0x00,0x20,0x00,0x30,0x00,0xFF,0xFF] decode to
x = 16, y = 32, z = 48. -/
theorem c4_data_get_decode :
    lis2mdl_data_get [0x10, 0x00, 0x20, 0x00, 0x30, 0x00, 0xFF, 0xFF] =
        (16, 32, 48) ∧
      data_get_read_count = 8 ∧
      (∀ bs bs' : List Nat, bs.take 6 = bs'.take 6 →
        lis2mdl_data_get bs = lis2mdl_data_get bs') ∧
      (∀ lo hi : Nat, lo < 256 → hi < 256 →
        -32768 ≤ int16OfBytes lo hi ∧ int16OfBytes lo hi < 32768 ∧
          (int16OfBytes lo hi) % 65536 = ((lo + 256 * hi : Nat) : Int) % 65536) := by
  refine ⟨by decide, rfl, ?_, ?_⟩
  · intro bs bs' htake
    have hi : ∀ i : Nat, i < 6 → bs.getD i 0 = bs'.getD i 0 := by
      intro i hilt
      rw [← getD_take bs 6 i hilt 0, ← getD_take bs' 6 i hilt 0, htake]
    simp only [lis2mdl_data_get]
    rw [hi 0 (by norm_num), hi 1 (by norm_num), hi 2 (by norm_num),
        hi 3 (by norm_num), hi 4 (by norm_num), hi 5 (by norm_num)]
  · intro lo hi hlo hhi
    simp only [int16OfBytes]
    have hlo' : lo % 256 = lo := Nat.mod_eq_of_lt hlo
    have hhi' : hi % 256 = hi := Nat.mod_eq_of_lt hhi
    rw [hlo', hhi']
    split <;> (constructor <;> [omega; (constructor <;> omega)])

/-- C4 witness: the decode invariance applied at concrete byte blocks
differing only in the trailing two bytes. -/
theorem c4_data_get_decode_witness :
    lis2mdl_data_get [16, 0, 32, 0, 48, 0, 255, 255] =
      lis2mdl_data_get [16, 0, 32, 0, 48, 0, 0, 0] :=
  c4_data_get_decode.2.2.1 _ _ (by decide)

/- ## Projection and evaluation lemmas for the calibration and self-test
computations -/

lemma offset_bias_bias_x (samples : List (Int × Int × Int)) :
    (lis2mdl_offset_bias samples).mag_bias.1 =
      Int.tdiv ((runExtrema (samples.map fun s => s.1)).1 +
        (runExtrema (samples.map fun s => s.1)).2) 2 := rfl

lemma offset_bias_bias_y (samples : List (Int × Int × Int)) :
    (lis2mdl_offset_bias samples).mag_bias.2.1 =
      Int.tdiv ((runExtrema (samples.map fun s => s.2.1)).1 +
        (runExtrema (samples.map fun s => s.2.1)).2) 2 := rfl

lemma offset_bias_bias_z (samples : List (Int × Int × Int)) :
    (lis2mdl_offset_bias samples).mag_bias.2.2 =
      Int.tdiv ((runExtrema (samples.map fun s => s.2.2)).1 +
        (runExtrema (samples.map fun s => s.2.2)).2) 2 := rfl

lemma offset_bias_dest1_x (samples : List (Int × Int × Int)) :
    (lis2mdl_offset_bias samples).dest1.1 =
      ((lis2mdl_offset_bias samples).mag_bias.1 : ℚ) * mRes := rfl

lemma offset_bias_dest1_y (samples : List (Int × Int × Int)) :
    (lis2mdl_offset_bias samples).dest1.2.1 =
      ((lis2mdl_offset_bias samples).mag_bias.2.1 : ℚ) * mRes := rfl

lemma offset_bias_dest1_z (samples : List (Int × Int × Int)) :
    (lis2mdl_offset_bias samples).dest1.2.2 =
      ((lis2mdl_offset_bias samples).mag_bias.2.2 : ℚ) * mRes := rfl

/-- The running extrema of a nonempty list of int16 samples none of which
is −32768 are exactly the list's true maximum and minimum. -/
lemma runExtrema_extrema_spec (l : List Int) (hne : l ≠ [])
    (hb : ∀ v ∈ l, -32767 ≤ v ∧ v ≤ 32767) :
    ∃ M m : Int,
      (M ∈ l ∧ ∀ v ∈ l, v ≤ M) ∧ (m ∈ l ∧ ∀ v ∈ l, m ≤ v) ∧
      (runExtrema l).1 = M ∧ (runExtrema l).2 = m := by
  obtain ⟨hM1, hM2⟩ := runExtrema_max_spec l hne (fun v hv => (hb v hv).1)
  obtain ⟨hm1, hm2⟩ := runExtrema_min_spec l hne (fun v hv => (hb v hv).2)
  exact ⟨(runExtrema l).1, (runExtrema l).2, ⟨hM1, hM2⟩, ⟨hm1, hm2⟩, rfl, rfl⟩

lemma offset_bias_scale_x (samples : List (Int × Int × Int)) :
    (lis2mdl_offset_bias samples).mag_scale.1 =
      Int.tdiv ((runExtrema (samples.map fun s => s.1)).1 -
        (runExtrema (samples.map fun s => s.1)).2) 2 := rfl

lemma sum3Step_foldl_replicate (n : Nat) (acc : Int × Int × Int)
    (a b c : Int) :
    (List.replicate n (a, b, c)).foldl sum3Step acc
      = (acc.1 + n * a, acc.2.1 + n * b, acc.2.2 + n * c) := by
  induction n generalizing acc with
  | zero =>
    obtain ⟨a1, a2, a3⟩ := acc
    simp
  | succ m ih =>
    rw [List.replicate_succ, List.foldl_cons, ih]
    simp only [sum3Step, Prod.ext_iff]
    refine ⟨?_, ?_, ?_⟩ <;> push_cast <;> ring

lemma sum3_replicate (n : Nat) (a b c : Int) :
    sum3 (List.replicate n (a, b, c))
      = ((n : Int) * a, (n : Int) * b, (n : Int) * c) := by
  show (List.replicate n (a, b, c)).foldl sum3Step (0, 0, 0) = _
  rw [sum3Step_foldl_replicate]
  simp

/- ## C6 -/

/-- C6: for every nonempty calibration input whose samples are int16
values other than −32768, the hard-iron bias of every axis is
(max + min) / 2 in truncation-toward-zero integer division over that
axis's true maximum M and minimum m, and every axis's returned offset is
that integer bias times the sensitivity constant 0.0015; the scenario
x samples [100, −50, 300, 10] with y and z fixed at 0 give x bias 125
counts, x offset 0.1875 physical units, and y and z biases 0; and the
x input [1, −4] gives bias tdiv(−3) 2 = −1, truncation toward zero
rather than flooring to −2. -/
theorem c6_hard_iron_bias (samples : List (Int × Int × Int))
    (hne : samples ≠ [])
    (hb : ∀ s ∈ samples, (-32767 ≤ s.1 ∧ s.1 ≤ 32767) ∧
      (-32767 ≤ s.2.1 ∧ s.2.1 ≤ 32767) ∧ (-32767 ≤ s.2.2 ∧ s.2.2 ≤ 32767)) :
    (∃ M m : Int,
        (M ∈ samples.map (fun s => s.1) ∧
          ∀ v ∈ samples.map (fun s => s.1), v ≤ M) ∧
        (m ∈ samples.map (fun s => s.1) ∧
          ∀ v ∈ samples.map (fun s => s.1), m ≤ v) ∧
        (lis2mdl_offset_bias samples).mag_bias.1 = Int.tdiv (M + m) 2 ∧
        (lis2mdl_offset_bias samples).dest1.1 =
          ((Int.tdiv (M + m) 2 : Int) : ℚ) * mRes) ∧
      (∃ M m : Int,
        (M ∈ samples.map (fun s => s.2.1) ∧
          ∀ v ∈ samples.map (fun s => s.2.1), v ≤ M) ∧
        (m ∈ samples.map (fun s => s.2.1) ∧
          ∀ v ∈ samples.map (fun s => s.2.1), m ≤ v) ∧
        (lis2mdl_offset_bias samples).mag_bias.2.1 = Int.tdiv (M + m) 2 ∧
        (lis2mdl_offset_bias samples).dest1.2.1 =
          ((Int.tdiv (M + m) 2 : Int) : ℚ) * mRes) ∧
      (∃ M m : Int,
        (M ∈ samples.map (fun s => s.2.2) ∧
          ∀ v ∈ samples.map (fun s => s.2.2), v ≤ M) ∧
        (m ∈ samples.map (fun s => s.2.2) ∧
          ∀ v ∈ samples.map (fun s => s.2.2), m ≤ v) ∧
        (lis2mdl_offset_bias samples).mag_bias.2.2 = Int.tdiv (M + m) 2 ∧
        (lis2mdl_offset_bias samples).dest1.2.2 =
          ((Int.tdiv (M + m) 2 : Int) : ℚ) * mRes) ∧
      (lis2mdl_offset_bias
        [((100 : Int), 0, 0), (-50, 0, 0), (300, 0, 0), (10, 0, 0)]).mag_bias.1
        = 125 ∧
      (lis2mdl_offset_bias
        [((100 : Int), 0, 0), (-50, 0, 0), (300, 0, 0), (10, 0, 0)]).dest1.1
        = 0.1875 ∧
      (lis2mdl_offset_bias
        [((100 : Int), 0, 0), (-50, 0, 0), (300, 0, 0), (10, 0, 0)]).mag_bias.2.1
        = 0 ∧
      (lis2mdl_offset_bias
        [((100 : Int), 0, 0), (-50, 0, 0), (300, 0, 0), (10, 0, 0)]).mag_bias.2.2
        = 0 ∧
      (lis2mdl_offset_bias [((1 : Int), 0, 0), (-4, 0, 0)]).mag_bias.1 = -1 := by
  refine ⟨?_, ?_, ?_, by decide, ?_, by decide, by decide, by decide⟩
  · obtain ⟨M, m, hM, hm, h1, h2⟩ := runExtrema_extrema_spec
      (samples.map fun s => s.1) (by simpa using hne)
      (by
        intro v hv
        obtain ⟨s, hs, rfl⟩ := List.mem_map.mp hv
        exact (hb s hs).1)
    refine ⟨M, m, hM, hm, ?_, ?_⟩
    · rw [offset_bias_bias_x, h1, h2]
    · rw [offset_bias_dest1_x, offset_bias_bias_x, h1, h2]
  · obtain ⟨M, m, hM, hm, h1, h2⟩ := runExtrema_extrema_spec
      (samples.map fun s => s.2.1) (by simpa using hne)
      (by
        intro v hv
        obtain ⟨s, hs, rfl⟩ := List.mem_map.mp hv
        exact (hb s hs).2.1)
    refine ⟨M, m, hM, hm, ?_, ?_⟩
    · rw [offset_bias_bias_y, h1, h2]
    · rw [offset_bias_dest1_y, offset_bias_bias_y, h1, h2]
  · obtain ⟨M, m, hM, hm, h1, h2⟩ := runExtrema_extrema_spec
      (samples.map fun s => s.2.2) (by simpa using hne)
      (by
        intro v hv
        obtain ⟨s, hs, rfl⟩ := List.mem_map.mp hv
        exact (hb s hs).2.2)
    refine ⟨M, m, hM, hm, ?_, ?_⟩
    · rw [offset_bias_bias_z, h1, h2]
    · rw [offset_bias_dest1_z, offset_bias_bias_z, h1, h2]
  · rw [offset_bias_dest1_x,
      show (lis2mdl_offset_bias
        [((100 : Int), 0, 0), (-50, 0, 0), (300, 0, 0), (10, 0, 0)]).mag_bias.1
        = 125 from by decide]
    norm_num [mRes]

/-- C6 witness: the theorem applied to the spec's scenario input. -/
theorem c6_hard_iron_bias_witness :
    (lis2mdl_offset_bias
      [((100 : Int), 0, 0), (-50, 0, 0), (300, 0, 0), (10, 0, 0)]).mag_bias.1
      = 125 :=
  (c6_hard_iron_bias [((100 : Int), 0, 0), (-50, 0, 0), (300, 0, 0), (10, 0, 0)]
    (by simp) (by decide)).2.2.2.1

/- ## C5 -/

/-- C5: for every calibration input, `avg_rad` is the sum of the three
scale bases divided by 3 (the arithmetic mean, in the exact-rational model
of the float arithmetic), and each returned soft-iron scale with nonzero
basis is exactly `avg_rad` divided by that axis's scale basis. -/
theorem c5_soft_iron_scale (samples : List (Int × Int × Int)) :
    (lis2mdl_offset_bias samples).avg_rad =
        (((lis2mdl_offset_bias samples).mag_scale.1 +
          (lis2mdl_offset_bias samples).mag_scale.2.1 +
          (lis2mdl_offset_bias samples).mag_scale.2.2 : Int) : ℚ) / 3 ∧
      ((lis2mdl_offset_bias samples).mag_scale.1 ≠ 0 →
        (lis2mdl_offset_bias samples).dest2.1 =
          (lis2mdl_offset_bias samples).avg_rad /
            (((lis2mdl_offset_bias samples).mag_scale.1 : Int) : ℚ)) ∧
      ((lis2mdl_offset_bias samples).mag_scale.2.1 ≠ 0 →
        (lis2mdl_offset_bias samples).dest2.2.1 =
          (lis2mdl_offset_bias samples).avg_rad /
            (((lis2mdl_offset_bias samples).mag_scale.2.1 : Int) : ℚ)) ∧
      ((lis2mdl_offset_bias samples).mag_scale.2.2 ≠ 0 →
        (lis2mdl_offset_bias samples).dest2.2.2 =
          (lis2mdl_offset_bias samples).avg_rad /
            (((lis2mdl_offset_bias samples).mag_scale.2.2 : Int) : ℚ)) :=
  ⟨rfl, fun _ => rfl, fun _ => rfl, fun _ => rfl⟩

/-- C5 witness: the theorem applied at a concrete input with nonzero
x scale basis. -/
theorem c5_soft_iron_scale_witness :
    (lis2mdl_offset_bias [((0 : Int), 0, 0), (10, 20, 30)]).dest2.1 =
      (lis2mdl_offset_bias [((0 : Int), 0, 0), (10, 20, 30)]).avg_rad /
        (((lis2mdl_offset_bias [((0 : Int), 0, 0), (10, 20, 30)]).mag_scale.1 :
          Int) : ℚ) :=
  (c5_soft_iron_scale [((0 : Int), 0, 0), (10, 20, 30)]).2.1 (by decide)

/- ## C2 -/

lemma extrema_foldl_const (k : Nat) (c : Int) :
    (List.replicate k c).foldl extremaStep (c, c) = (c, c) := by
  induction k with
  | zero => rfl
  | succ n ih =>
    rw [List.replicate_succ, List.foldl_cons]
    have hstep : extremaStep (c, c) c = (c, c) := by
      rw [Prod.ext_iff, extremaStep_fst, extremaStep_snd]
      constructor
      · split <;> omega
      · split <;> omega
    rw [hstep, ih]

lemma runExtrema_const_42 :
    runExtrema (List.replicate 4000 (42 : Int)) = (42, 42) := by
  show (List.replicate 4000 (42 : Int)).foldl extremaStep extremaInit
    = (42, 42)
  rw [show (4000 : Nat) = 3999 + 1 from rfl, List.replicate_succ,
      List.foldl_cons]
  have hstep : extremaStep extremaInit 42 = (42, 42) := by decide
  rw [hstep, extrema_foldl_const]

/-- C2: the claim fails on the code.  `lis2mdl_offset_bias` has no
degenerate-range check and no failure path at all: on the spec's failing
input (the constant sample 42 on every axis for all 4000 iterations) the
x scale basis is 0, and for every input the returned x soft-iron scale is
unconditionally the quotient `avg_rad / mag_scale[0]` — which on the
failing input is a division by zero (NaN/Infinity in the source's IEEE
float arithmetic), not a distinct error. -/
theorem c2_no_degenerate_guard :
    (lis2mdl_offset_bias
        (List.replicate 4000 ((42 : Int), 42, 42))).mag_scale.1 = 0 ∧
      ∀ samples : List (Int × Int × Int),
        (lis2mdl_offset_bias samples).dest2.1 =
          (lis2mdl_offset_bias samples).avg_rad /
            (((lis2mdl_offset_bias samples).mag_scale.1 : Int) : ℚ) := by
  constructor
  · rw [offset_bias_scale_x]
    simp only [List.map_replicate]
    rw [runExtrema_const_42]
    decide
  · intro samples
    rfl

/- ## C1 -/

/-- C1: the claim fails on the code.  The "My results" line of
`lis2mdl_self_test` prints the x-axis delta again (the source reuses
`magTest[0] - magNom[0]`), and the "Mz results" line prints the y-axis
delta, so only Mx reports its own axis.  With baseline samples all
(0, 0, 0) and excited samples all (10, 20, 30), the per-axis deltas of the
claim are 15, 30 and 45 m-units, but the code prints 15, 15 and 30. -/
theorem c1_self_test_axis_reuse :
    (∀ b e : List (Int × Int × Int),
        (lis2mdl_self_test b e).printedMy = (lis2mdl_self_test b e).printedMx) ∧
      (lis2mdl_self_test (List.replicate 50 ((0 : Int), 0, 0))
        (List.replicate 50 ((10 : Int), 20, 30))).printedMx = 15 ∧
      (lis2mdl_self_test (List.replicate 50 ((0 : Int), 0, 0))
        (List.replicate 50 ((10 : Int), 20, 30))).printedMy = 15 ∧
      (lis2mdl_self_test (List.replicate 50 ((0 : Int), 0, 0))
        (List.replicate 50 ((10 : Int), 20, 30))).printedMz = 30 ∧
      ((lis2mdl_self_test (List.replicate 50 ((0 : Int), 0, 0))
          (List.replicate 50 ((10 : Int), 20, 30))).magTest.2.1 -
        (lis2mdl_self_test (List.replicate 50 ((0 : Int), 0, 0))
          (List.replicate 50 ((10 : Int), 20, 30))).magNom.2.1) * mRes * 1000
        = 30 ∧
      ((lis2mdl_self_test (List.replicate 50 ((0 : Int), 0, 0))
          (List.replicate 50 ((10 : Int), 20, 30))).magTest.2.2 -
        (lis2mdl_self_test (List.replicate 50 ((0 : Int), 0, 0))
          (List.replicate 50 ((10 : Int), 20, 30))).magNom.2.2) * mRes * 1000
        = 45 := by
  have hB : sum3 ((List.replicate 50 ((0 : Int), 0, 0)).take 50)
      = ((0 : Int), (0 : Int), (0 : Int)) := by
    simp only [List.take_replicate, Nat.min_self, sum3_replicate]
    norm_num
  have hE : sum3 ((List.replicate 50 ((10 : Int), 20, 30)).take 50)
      = ((500 : Int), (1000 : Int), (1500 : Int)) := by
    simp only [List.take_replicate, Nat.min_self, sum3_replicate]
    norm_num
  refine ⟨fun _ _ => rfl, ?_, ?_, ?_, ?_, ?_⟩
  · show (((sum3 ((List.replicate 50 ((10 : Int), 20, 30)).take 50)).1 : ℚ) / 50
        - ((sum3 ((List.replicate 50 ((0 : Int), 0, 0)).take 50)).1 : ℚ) / 50)
        * mRes * 1000 = 15
    rw [hB, hE]
    norm_num [mRes]
  · show (((sum3 ((List.replicate 50 ((10 : Int), 20, 30)).take 50)).1 : ℚ) / 50
        - ((sum3 ((List.replicate 50 ((0 : Int), 0, 0)).take 50)).1 : ℚ) / 50)
        * mRes * 1000 = 15
    rw [hB, hE]
    norm_num [mRes]
  · show (((sum3 ((List.replicate 50 ((10 : Int), 20, 30)).take 50)).2.1 : ℚ) / 50
        - ((sum3 ((List.replicate 50 ((0 : Int), 0, 0)).take 50)).2.1 : ℚ) / 50)
        * mRes * 1000 = 30
    rw [hB, hE]
    norm_num [mRes]
  · show (((sum3 ((List.replicate 50 ((10 : Int), 20, 30)).take 50)).2.1 : ℚ) / 50
        - ((sum3 ((List.replicate 50 ((0 : Int), 0, 0)).take 50)).2.1 : ℚ) / 50)
        * mRes * 1000 = 30
    rw [hB, hE]
    norm_num [mRes]
  · show (((sum3 ((List.replicate 50 ((10 : Int), 20, 30)).take 50)).2.2 : ℚ) / 50
        - ((sum3 ((List.replicate 50 ((0 : Int), 0, 0)).take 50)).2.2 : ℚ) / 50)
        * mRes * 1000 = 45
    rw [hB, hE]
    norm_num [mRes]

/- ## Effect-level helper lemmas -/

lemma sampleLoop_spec (n : Nat) (d : Dev) :
    (sampleLoop n d).2.1.regs = d.regs ∧
      (sampleLoop n d).2.1.idx = d.idx + n ∧
      (sampleLoop n d).2.2 =
        List.replicate n
          (BusOp.readBytes LIS2MDL_ADDRESS (0x80 ||| LIS2MDL_OUTX_L_REG)
            data_get_read_count) := by
  induction n generalizing d with
  | zero => exact ⟨rfl, rfl, rfl⟩
  | succ m ih =>
    obtain ⟨h1, h2, h3⟩ := ih { d with idx := d.idx + 1 }
    refine ⟨h1, ?_, ?_⟩
    · show (sampleLoop m { d with idx := d.idx + 1 }).2.1.idx = d.idx + (m + 1)
      rw [h2]
      show d.idx + 1 + m = d.idx + (m + 1)
      omega
    · show _ ++ (sampleLoop m { d with idx := d.idx + 1 }).2.2 = _
      rw [h3, List.replicate_succ]
      exact rfl

lemma write_byte_regs (sub data : Nat) (d : Dev) :
    (lis2mdl_write_byte sub data d).1.regs
      = fun s => if s = sub then data else d.regs s := rfl

/- ## C8 -/

/-- C8: for every device state, the bus trace of `lis2mdl_offset_bias` is
exactly 4000 repetitions of the single-RawSample multi-byte read and
nothing else — in particular it contains no write — one sample being
consumed per iteration (the read index advances by exactly 4000), and the
device register state after the calibration pass equals the state before
it. -/
theorem c8_calibration_frame (d : Dev) :
    (lis2mdl_offset_bias_eff d).2.1.regs = d.regs ∧
      (lis2mdl_offset_bias_eff d).2.2 =
        List.replicate 4000
          (BusOp.readBytes LIS2MDL_ADDRESS (0x80 ||| LIS2MDL_OUTX_L_REG) 8) ∧
      (lis2mdl_offset_bias_eff d).2.1.idx = d.idx + 4000 := by
  obtain ⟨h1, h2, h3⟩ := sampleLoop_spec 4000 d
  rw [show data_get_read_count = 8 from rfl] at h3
  rcases hE : sampleLoop 4000 d with ⟨samples, d1, ops⟩
  rw [hE] at h1 h2 h3
  have h1' : d1.regs = d.regs := h1
  have h2' : d1.idx = d.idx + 4000 := h2
  have h3' : ops = List.replicate 4000
      (BusOp.readBytes LIS2MDL_ADDRESS (0x80 ||| LIS2MDL_OUTX_L_REG) 8) := h3
  rw [lis2mdl_offset_bias_eff, hE]
  exact ⟨h1', h3', h2'⟩

/- ## C9 -/

lemma self_test_eff_dev (d : Dev) :
    (lis2mdl_self_test_eff d).2.1
      = (lis2mdl_write_byte LIS2MDL_CFG_REG_C
          ((sampleLoop 50 d).2.1.regs LIS2MDL_CFG_REG_C)
          (sampleLoop 50
            (lis2mdl_write_byte LIS2MDL_CFG_REG_C
              ((sampleLoop 50 d).2.1.regs LIS2MDL_CFG_REG_C ||| 0x02)
              (sampleLoop 50 d).2.1).1).2.1).1 := rfl

lemma self_test_eff_ops (d : Dev) :
    (lis2mdl_self_test_eff d).2.2
      = (sampleLoop 50 d).2.2
        ++ [BusOp.readBytes LIS2MDL_ADDRESS LIS2MDL_CFG_REG_C 1]
        ++ [BusOp.writeByte LIS2MDL_ADDRESS LIS2MDL_CFG_REG_C
              ((sampleLoop 50 d).2.1.regs LIS2MDL_CFG_REG_C ||| 0x02)]
        ++ (sampleLoop 50
            (lis2mdl_write_byte LIS2MDL_CFG_REG_C
              ((sampleLoop 50 d).2.1.regs LIS2MDL_CFG_REG_C ||| 0x02)
              (sampleLoop 50 d).2.1).1).2.2
        ++ [BusOp.writeByte LIS2MDL_ADDRESS LIS2MDL_CFG_REG_C
              ((sampleLoop 50 d).2.1.regs LIS2MDL_CFG_REG_C)] := rfl

/-- C9: for every device state (so for every value the initial register
read can produce), `lis2mdl_self_test` first reads CFG_REG_C, writes it
back with the self-test bit 0x02 set before the excited pass, and after
the excited pass writes back exactly the value originally read, so the
whole register file when it returns equals the register file before the
call.  The bus trace is exactly: 50 sample reads, the CFG_REG_C read, the
set-bit write, 50 sample reads, the restoring write. -/
theorem c9_self_test_frame (d : Dev) :
    (lis2mdl_self_test_eff d).2.1.regs = d.regs ∧
      (lis2mdl_self_test_eff d).2.2 =
        List.replicate 50
            (BusOp.readBytes LIS2MDL_ADDRESS (0x80 ||| LIS2MDL_OUTX_L_REG) 8)
          ++ [BusOp.readBytes LIS2MDL_ADDRESS LIS2MDL_CFG_REG_C 1,
              BusOp.writeByte LIS2MDL_ADDRESS LIS2MDL_CFG_REG_C
                (d.regs LIS2MDL_CFG_REG_C ||| 0x02)]
          ++ List.replicate 50
            (BusOp.readBytes LIS2MDL_ADDRESS (0x80 ||| LIS2MDL_OUTX_L_REG) 8)
          ++ [BusOp.writeByte LIS2MDL_ADDRESS LIS2MDL_CFG_REG_C
                (d.regs LIS2MDL_CFG_REG_C)] := by
  obtain ⟨hA1, hA2, hA3⟩ := sampleLoop_spec 50 d
  obtain ⟨hB1, hB2, hB3⟩ := sampleLoop_spec 50
    (lis2mdl_write_byte LIS2MDL_CFG_REG_C
      ((sampleLoop 50 d).2.1.regs LIS2MDL_CFG_REG_C ||| 0x02)
      (sampleLoop 50 d).2.1).1
  rw [hA1] at hB1 hB3
  constructor
  · rw [self_test_eff_dev, write_byte_regs]
    funext s
    simp only [hA1, hB1, write_byte_regs]
    by_cases hs : s = LIS2MDL_CFG_REG_C
    · rw [if_pos hs, hs]
    · rw [if_neg hs, if_neg hs]
  · rw [self_test_eff_ops, hA3, hA1, hB3]
    simp [List.append_assoc, data_get_read_count]

/- ## C10 -/

/-- C10: the stored interrupt pin never influences any other operation.
For every two pin values, each driver operation run after `lis2mdl_new`
with the one pin or the other returns the same result, the same final
device state, and the same bus trace, for every device state (hence for
all bus responses). -/
theorem c10_int_pin_noninterference (p1 p2 : Nat) (d : Dev) :
    lis2mdl_chip_id_get_eff (lis2mdl_new p1) d
        = lis2mdl_chip_id_get_eff (lis2mdl_new p2) d ∧
      lis2mdl_status_eff (lis2mdl_new p1) d
        = lis2mdl_status_eff (lis2mdl_new p2) d ∧
      lis2mdl_data_get_eff (lis2mdl_new p1) d
        = lis2mdl_data_get_eff (lis2mdl_new p2) d ∧
      lis2mdl_temp_get_eff' (lis2mdl_new p1) d
        = lis2mdl_temp_get_eff' (lis2mdl_new p2) d ∧
      lis2mdl_offset_bias_eff' (lis2mdl_new p1) d
        = lis2mdl_offset_bias_eff' (lis2mdl_new p2) d ∧
      lis2mdl_self_test_eff' (lis2mdl_new p1) d
        = lis2mdl_self_test_eff' (lis2mdl_new p2) d ∧
      (lis2mdl_new p1).intPin = p1 ∧ (lis2mdl_new p2).intPin = p2 :=
  ⟨rfl, rfl, rfl, rfl, rfl, rfl, rfl, rfl⟩

end LIS2MDL
